import Mathlib

/-!
Shallow embedding of `src/instagram.py` (instagram-username-availability).

Candidates are modelled as `List Char`.  The enumeration constants of the
source are `ALLOWED`, `MIN_LEN` and `MAX_LEN`; the enumeration functions are
parametrised by an alphabet and the two length bounds so that properties can
be stated for every configuration, and the source's concrete configuration is
recovered by instantiating with the constants below.

The generator `generate_usernames` of the source is a Python generator; since
it is a pure function of its construction parameter `start_after`, it is
embedded as the list of all usernames it yields, in yield order.
-/

/-- Constant `ALLOWED` of the source: the candidate alphabet, in source order. -/
def ALLOWED : List Char := "abcdefghijklmnopqrstuvwxyz0123456789._".toList

/-- Constant `MIN_LEN` of the source. -/
def MIN_LEN : Nat := 1

/-- Constant `MAX_LEN` of the source. -/
def MAX_LEN : Nat := 4

/-- Model of `username.startswith(".")`. -/
def startsWithDot : List Char → Bool
  | [] => false
  | c :: _ => c = '.'

/-- Model of `username.endswith(".")`. -/
def endsWithDot (u : List Char) : Bool :=
  match u.getLast? with
  | some c => c = '.'
  | none => false

/-- Model of `".." in username`: a contiguous occurrence of two dots. -/
def hasDoubleDot : List Char → Bool
  | '.' :: '.' :: _ => true
  | _ :: rest => hasDoubleDot rest
  | [] => false

/-- Model of `is_valid_instagram_username` (source lines 99-109), parametrised
by the alphabet and the length bounds: length within bounds, no leading or
trailing dot, no `".."` substring, every character in the alphabet. -/
def is_valid_instagram_username (alpha : List Char) (minLen maxLen : Nat)
    (u : List Char) : Bool :=
  decide (minLen ≤ u.length) && decide (u.length ≤ maxLen) &&
  !(startsWithDot u) && !(endsWithDot u) && !(hasDoubleDot u) &&
  u.all (fun c => decide (c ∈ alpha))

/-- Model of `itertools.product(alpha, repeat=n)`: all length-`n` tuples over
`alpha`, leftmost position most significant, positions running through
`alpha` in alphabet order. -/
def productRepeat (alpha : List Char) : Nat → List (List Char)
  | 0 => [[]]
  | n + 1 => alpha.flatMap (fun c => (productRepeat alpha n).map (fun s => c :: s))

/-- Model of `range(MIN_LEN, MAX_LEN + 1)`. -/
def lengthRange (minLen maxLen : Nat) : List Nat :=
  List.range' minLen (maxLen + 1 - minLen)

/-- The skipping behaviour of the `started` flag in `generate_usernames`
(source lines 119-129) on the stream of valid usernames: drop everything up
to and including the first element equal to `s`; if `s` never occurs,
nothing is ever yielded. -/
def resumeSkip (s : List Char) : List (List Char) → List (List Char)
  | [] => []
  | u :: rest => if u = s then rest else resumeSkip s rest

/-- Model of `generate_usernames` (source lines 115-130) as the list of
usernames the generator yields: lengths from `minLen` to `maxLen`, for each
length all tuples of `itertools.product` in order, filtered by
`is_valid_instagram_username`, with the `start_after` skipping logic. -/
def generate_usernames (alpha : List Char) (minLen maxLen : Nat)
    (start_after : Option (List Char)) : List (List Char) :=
  let valid := ((lengthRange minLen maxLen).flatMap (productRepeat alpha)).filter
      (is_valid_instagram_username alpha minLen maxLen)
  match start_after with
  | none => valid
  | some s => resumeSkip s valid

/-- Strict lexicographic order on equal-length strings, comparing at the
first differing position by index in the alphabet `alpha`. -/
def lexLt (alpha : List Char) : List Char → List Char → Bool
  | _ :: _, [] => false
  | [], _ => false
  | a :: s, b :: t =>
    if a = b then lexLt alpha s t
    else decide (alpha.indexOf a < alpha.indexOf b)

/-- The candidate order of the specification: first by length ascending, then
lexicographically by alphabet index. -/
def candLt (alpha : List Char) (s t : List Char) : Prop :=
  s.length < t.length ∨ (s.length = t.length ∧ lexLt alpha s t = true)

theorem lexLt_self (alpha : List Char) : ∀ s, lexLt alpha s s = false := by
  intro s
  induction s with
  | nil => rfl
  | cons a t ih => simp [lexLt, ih]

theorem lexLt_cons_same (alpha : List Char) (c : Char) (s t : List Char) :
    lexLt alpha (c :: s) (c :: t) = lexLt alpha s t := by
  simp [lexLt]

theorem lexLt_cons_lt (alpha : List Char) {c d : Char} (s t : List Char)
    (hne : c ≠ d) (hlt : alpha.indexOf c < alpha.indexOf d) :
    lexLt alpha (c :: s) (d :: t) = true := by
  simp [lexLt, hne, hlt]

theorem mem_productRepeat (alpha : List Char) :
    ∀ (n : Nat) (u : List Char),
      u ∈ productRepeat alpha n ↔ u.length = n ∧ ∀ c ∈ u, c ∈ alpha := by
  intro n
  induction n with
  | zero =>
    intro u
    simp [productRepeat, List.length_eq_zero]
    rintro rfl
    simp
  | succ n ih =>
    intro u
    simp only [productRepeat, List.mem_flatMap, List.mem_map]
    constructor
    · rintro ⟨c, hc, s, hs, rfl⟩
      obtain ⟨hlen, hmem⟩ := (ih s).1 hs
      refine ⟨by simp [hlen], ?_⟩
      intro d hd
      rcases List.mem_cons.1 hd with rfl | hd
      · exact hc
      · exact hmem d hd
    · rintro ⟨hlen, hmem⟩
      cases u with
      | nil => simp at hlen
      | cons c s =>
        refine ⟨c, hmem c (List.mem_cons_self c s), s, (ih s).2 ⟨?_, ?_⟩, rfl⟩
        · simpa using hlen
        · intro d hd
          exact hmem d (List.mem_cons_of_mem c hd)

theorem indexOf_pairwise {alpha : List Char} (hnd : alpha.Nodup) :
    alpha.Pairwise (fun c d => alpha.indexOf c < alpha.indexOf d) := by
  rw [List.pairwise_iff_getElem]
  intro i j hi hj hij
  rw [List.indexOf_getElem hnd i hi, List.indexOf_getElem hnd j hj]
  exact hij

theorem productRepeat_pairwise {alpha : List Char} (hnd : alpha.Nodup) :
    ∀ n, (productRepeat alpha n).Pairwise (fun s t => lexLt alpha s t = true) := by
  intro n
  induction n with
  | zero => simp [productRepeat]
  | succ n ih =>
    rw [productRepeat, List.pairwise_flatMap]
    constructor
    · intro c _
      rw [List.pairwise_map]
      exact ih.imp (fun h => by rw [lexLt_cons_same]; exact h)
    · refine (indexOf_pairwise hnd).imp_of_mem ?_
      intro c d _ _ hlt
      intro x hx y hy
      obtain ⟨s, _, rfl⟩ := List.mem_map.1 hx
      obtain ⟨t, _, rfl⟩ := List.mem_map.1 hy
      have hne : c ≠ d := fun h => by subst h; exact Nat.lt_irrefl _ hlt
      exact lexLt_cons_lt alpha s t hne hlt

theorem generate_none_eq (alpha : List Char) (minLen maxLen : Nat) :
    generate_usernames alpha minLen maxLen none =
      ((lengthRange minLen maxLen).flatMap (productRepeat alpha)).filter
        (is_valid_instagram_username alpha minLen maxLen) := rfl

theorem generate_some_eq (alpha : List Char) (minLen maxLen : Nat) (s : List Char) :
    generate_usernames alpha minLen maxLen (some s) =
      resumeSkip s (generate_usernames alpha minLen maxLen none) := rfl

theorem is_valid_iff (alpha : List Char) (minLen maxLen : Nat) (u : List Char) :
    is_valid_instagram_username alpha minLen maxLen u = true ↔
      (minLen ≤ u.length ∧ u.length ≤ maxLen ∧
       startsWithDot u = false ∧ endsWithDot u = false ∧ hasDoubleDot u = false ∧
       ∀ c ∈ u, c ∈ alpha) := by
  simp [is_valid_instagram_username, and_assoc]

theorem mem_generate_none (alpha : List Char) (minLen maxLen : Nat) (u : List Char) :
    u ∈ generate_usernames alpha minLen maxLen none ↔
      is_valid_instagram_username alpha minLen maxLen u = true := by
  rw [generate_none_eq]
  rw [List.mem_filter]
  constructor
  · rintro ⟨-, h⟩
    exact h
  · intro hv
    refine ⟨?_, hv⟩
    rw [List.mem_flatMap]
    have h := (is_valid_iff alpha minLen maxLen u).1 hv
    refine ⟨u.length, ?_, (mem_productRepeat alpha u.length u).2 ⟨rfl, h.2.2.2.2.2⟩⟩
    have h1 := h.1
    have h2 := h.2.1
    simp only [lengthRange, List.mem_range'_1]
    omega

theorem generate_none_pairwise {alpha : List Char} (hnd : alpha.Nodup)
    (minLen maxLen : Nat) :
    (generate_usernames alpha minLen maxLen none).Pairwise (candLt alpha) := by
  rw [generate_none_eq]
  apply List.Pairwise.filter
  rw [List.pairwise_flatMap]
  constructor
  · intro L _
    refine (productRepeat_pairwise hnd L).imp_of_mem ?_
    intro s t hs ht hlex
    right
    have hls := ((mem_productRepeat alpha L s).1 hs).1
    have hlt := ((mem_productRepeat alpha L t).1 ht).1
    exact ⟨by rw [hls, hlt], hlex⟩
  · have hr : (lengthRange minLen maxLen).Pairwise (· < ·) :=
      List.pairwise_lt_range' minLen (maxLen + 1 - minLen)
    refine hr.imp_of_mem ?_
    intro L1 L2 _ _ h12 x hx y hy
    left
    rw [((mem_productRepeat alpha L1 x).1 hx).1, ((mem_productRepeat alpha L2 y).1 hy).1]
    exact h12

theorem candLt_irrefl (alpha : List Char) (s : List Char) : ¬ candLt alpha s s := by
  rintro (h | ⟨-, h⟩)
  · exact Nat.lt_irrefl _ h
  · simp [lexLt_self] at h

theorem generate_none_nodup {alpha : List Char} (hnd : alpha.Nodup)
    (minLen maxLen : Nat) :
    (generate_usernames alpha minLen maxLen none).Nodup := by
  refine (generate_none_pairwise hnd minLen maxLen).imp ?_
  intro s t h heq
  exact candLt_irrefl alpha s (heq ▸ h)

/-- C1: for every configuration — an alphabet without duplicate characters
and arbitrary length bounds — the sequence produced by `generate_usernames`
with no resume value is strictly increasing in the order "first by length
ascending, then lexicographically by alphabet index" (so no candidate is
repeated), and its members are exactly the valid candidates: length within
the bounds, no leading or trailing dot, no `".."` substring, and every
character in the alphabet.  Re-enumerating from scratch reproduces the
identical sequence because the embedding of the generator is a pure function
of the configuration. -/
theorem generate_usernames_enumerates (alpha : List Char) (minLen maxLen : Nat)
    (hnd : alpha.Nodup) :
    (generate_usernames alpha minLen maxLen none).Pairwise (candLt alpha) ∧
    (generate_usernames alpha minLen maxLen none).Nodup ∧
    ∀ u : List Char,
      u ∈ generate_usernames alpha minLen maxLen none ↔
        (minLen ≤ u.length ∧ u.length ≤ maxLen ∧
         startsWithDot u = false ∧ endsWithDot u = false ∧ hasDoubleDot u = false ∧
         ∀ c ∈ u, c ∈ alpha) :=
  ⟨generate_none_pairwise hnd minLen maxLen,
   generate_none_nodup hnd minLen maxLen,
   fun u => (mem_generate_none alpha minLen maxLen u).trans
     (is_valid_iff alpha minLen maxLen u)⟩

/-- Witness for C1 at the concrete configuration (alphabet "ab.", lengths 1-2). -/
theorem generate_usernames_enumerates_witness :
    (['a', 'b', '.'] : List Char).Nodup ∧
    ((generate_usernames ['a', 'b', '.'] 1 2 none).Pairwise (candLt ['a', 'b', '.']) ∧
     (generate_usernames ['a', 'b', '.'] 1 2 none).Nodup ∧
     ∀ u : List Char,
       u ∈ generate_usernames ['a', 'b', '.'] 1 2 none ↔
         (1 ≤ u.length ∧ u.length ≤ 2 ∧
          startsWithDot u = false ∧ endsWithDot u = false ∧ hasDoubleDot u = false ∧
          ∀ c ∈ u, c ∈ (['a', 'b', '.'] : List Char))) :=
  ⟨by decide, generate_usernames_enumerates ['a', 'b', '.'] 1 2 (by decide)⟩

theorem resumeSkip_getElem :
    ∀ (l : List (List Char)), l.Nodup → ∀ (k : Nat) (s : List Char),
      l[k]? = some s → resumeSkip s l = l.drop (k + 1) := by
  intro l
  induction l with
  | nil =>
    intro _ k s h
    simp at h
  | cons x xs ih =>
    intro hnd k s h
    cases k with
    | zero =>
      simp only [List.getElem?_cons_zero, Option.some.injEq] at h
      subst h
      simp [resumeSkip]
    | succ k =>
      rw [List.getElem?_cons_succ] at h
      have hs : s ∈ xs := List.getElem?_mem h
      have hx : x ∉ xs := (List.nodup_cons.1 hnd).1
      have hne : x ≠ s := fun e => hx (e ▸ hs)
      rw [List.drop_succ_cons]
      rw [resumeSkip, if_neg hne]
      exact ih (List.nodup_cons.1 hnd).2 k s h

/-- C2: for every position `k` of the full deterministic enumeration,
constructing the generator with `start_after` equal to the candidate at
position `k` yields exactly the suffix of the full enumeration that starts at
position `k + 1`. -/
theorem generate_usernames_resume (alpha : List Char) (minLen maxLen k : Nat)
    (s : List Char) (hnd : alpha.Nodup)
    (hk : (generate_usernames alpha minLen maxLen none)[k]? = some s) :
    generate_usernames alpha minLen maxLen (some s) =
      (generate_usernames alpha minLen maxLen none).drop (k + 1) := by
  rw [generate_some_eq]
  exact resumeSkip_getElem _ (generate_none_nodup hnd minLen maxLen) k s hk

/-- Witness for C2: alphabet "ab", lengths 1-2, position 2 holds "aa", and
resuming after "aa" yields the suffix from position 3. -/
theorem generate_usernames_resume_witness :
    (['a', 'b'] : List Char).Nodup ∧
    (generate_usernames ['a', 'b'] 1 2 none)[2]? = some ['a', 'a'] ∧
    generate_usernames ['a', 'b'] 1 2 (some ['a', 'a']) =
      (generate_usernames ['a', 'b'] 1 2 none).drop 3 :=
  ⟨by decide, by decide,
   generate_usernames_resume ['a', 'b'] 1 2 2 ['a', 'a'] (by decide) (by decide)⟩

theorem resumeSkip_of_not_mem (s : List Char) :
    ∀ l : List (List Char), s ∉ l → resumeSkip s l = [] := by
  intro l
  induction l with
  | nil => intro _; rfl
  | cons x xs ih =>
    intro h
    have hne : x ≠ s := fun e => h (e ▸ List.mem_cons_self x xs)
    rw [resumeSkip, if_neg hne]
    exact ih fun hm => h (List.mem_cons_of_mem x hm)

/-- C3 counterexample: with the source configuration, the string "A" never
appears in the enumeration (uppercase is outside `ALLOWED`), yet resuming
after it yields the empty sequence — not the full sequence the claim
predicts (the full sequence is nonempty, e.g. it contains "a"). -/
theorem generate_usernames_missing_start_counterexample :
    (['A'] ∉ generate_usernames ALLOWED MIN_LEN MAX_LEN none) ∧
    generate_usernames ALLOWED MIN_LEN MAX_LEN (some ['A']) ≠
      generate_usernames ALLOWED MIN_LEN MAX_LEN none := by
  have hA : (['A'] : List Char) ∉ generate_usernames ALLOWED MIN_LEN MAX_LEN none := by
    intro hmem
    have hv := (mem_generate_none ALLOWED MIN_LEN MAX_LEN ['A']).1 hmem
    have hall := ((is_valid_iff ALLOWED MIN_LEN MAX_LEN ['A']).1 hv).2.2.2.2.2
    have hAmem : 'A' ∈ ALLOWED := hall 'A' (by simp)
    revert hAmem
    decide
  refine ⟨hA, ?_⟩
  have h1 : generate_usernames ALLOWED MIN_LEN MAX_LEN (some ['A']) = [] := by
    rw [generate_some_eq]
    exact resumeSkip_of_not_mem _ _ hA
  have h2 : (['a'] : List Char) ∈ generate_usernames ALLOWED MIN_LEN MAX_LEN none := by
    rw [mem_generate_none]
    decide
  intro he
  rw [h1] at he
  exact List.ne_nil_of_mem h2 he.symm

/-- C3 amended: for every string that does not appear anywhere in the
deterministic enumeration, constructing the generator with that string as
`start_after` yields the empty sequence — the `started` flag is never set, so
every candidate is skipped (rather than none, as the original claim said). -/
theorem generate_usernames_missing_start (alpha : List Char) (minLen maxLen : Nat)
    (s : List Char) (hs : s ∉ generate_usernames alpha minLen maxLen none) :
    generate_usernames alpha minLen maxLen (some s) = [] := by
  rw [generate_some_eq]
  exact resumeSkip_of_not_mem s _ hs

/-- Witness for the amended C3: with alphabet "ab" and lengths 1-2, the
string "z" is not enumerated and resuming after it yields nothing. -/
theorem generate_usernames_missing_start_witness :
    (['z'] ∉ generate_usernames ['a', 'b'] 1 2 none) ∧
    generate_usernames ['a', 'b'] 1 2 (some ['z']) = [] :=
  ⟨by decide, generate_usernames_missing_start ['a', 'b'] 1 2 ['z'] (by decide)⟩

/-- Transport-level result of the single HTTP GET inside `check_username`:
either a response with a status code (transport succeeded) or a raised
exception (timeout, connection error, DNS failure, and so on). -/
inductive HttpResult where
  | response (status : Nat)
  | failure
deriving DecidableEq

/-- Model of `check_username` (source lines 136-158): the outcome string as a
function of the transport result of the GET request.  The URL template and
the randomly chosen User-Agent header of the source do not influence the
outcome mapping and are not modelled. -/
def check_username (r : HttpResult) : String :=
  match r with
  | .response status =>
    if status = 404 then "available"
    else if status = 200 then "taken"
    else if status = 403 ∨ status = 429 then "blocked"
    else "unknown"
  | .failure => "error"

/-- C5: `check_username` maps HTTP status 404 to "available", 200 to "taken",
403 and 429 to "blocked", every other response status to "unknown", and
transport failure to "error"; every input produces one of the five
outcomes. -/
theorem check_username_mapping :
    check_username (.response 404) = "available" ∧
    check_username (.response 200) = "taken" ∧
    check_username (.response 403) = "blocked" ∧
    check_username (.response 429) = "blocked" ∧
    (∀ s : Nat, s ≠ 404 → s ≠ 200 → s ≠ 403 → s ≠ 429 →
      check_username (.response s) = "unknown") ∧
    check_username .failure = "error" ∧
    ∀ r : HttpResult,
      check_username r ∈ (["available", "taken", "blocked", "unknown", "error"] : List String) := by
  refine ⟨rfl, rfl, rfl, rfl, ?_, rfl, ?_⟩
  · intro s h1 h2 h3 h4
    simp [check_username, h1, h2, h3, h4]
  · intro r
    cases r with
    | failure => simp [check_username]
    | response s =>
      by_cases h1 : s = 404 <;> by_cases h2 : s = 200 <;>
        by_cases h3 : s = 403 ∨ s = 429 <;>
          simp [check_username, h1, h2, h3]

/-- Witness for C5: an unlisted status such as 500 is classified "unknown". -/
theorem check_username_mapping_witness :
    check_username (.response 500) = "unknown" :=
  check_username_mapping.2.2.2.2.1 500 (by decide) (by decide) (by decide) (by decide)

/-- A JSON value, as returned by `json.load`. -/
inductive Json where
  | null
  | bool (b : Bool)
  | num (n : Int)
  | str (s : String)
  | arr (items : List Json)
  | obj (fields : List (String × Json))

/-- Model of Python `data.get(key)` on a parsed JSON dict: an absent key and
a JSON `null` value are both returned as Python `None`. -/
def pyDictGet (fields : List (String × Json)) (key : String) : Option Json :=
  match fields.lookup key with
  | none => none
  | some Json.null => none
  | some v => some v

/-- State of the checkpoint file as observed by `load_checkpoint`: missing,
unreadable (open or read raises), holding text that `json.load` rejects, or
holding text that `json.load` parses to a JSON value. -/
inductive CheckpointFile where
  | absent
  | unreadable
  | malformed
  | parsed (j : Json)

/-- Model of `load_checkpoint` (source lines 31-40).  The surrounding
try/except swallows every exception — missing file, unreadable file,
malformed JSON, and the `AttributeError` from calling `.get` on a non-dict
top-level value — and the function then returns `None`; on a parsed dict it
returns `data.get("last")`. -/
def load_checkpoint : CheckpointFile → Option Json
  | .absent => none
  | .unreadable => none
  | .malformed => none
  | .parsed (.obj fields) => pyDictGet fields "last"
  | .parsed _ => none

/-- Model of `save_checkpoint` (source lines 43-54) after a successful write:
the temp-file write plus `os.replace` atomically make the checkpoint file
hold the JSON object produced by `json.dump({"last": last_checked})`, whose
single field is JSON null when the in-memory value is `None` and a JSON
string otherwise.  (Since `json.dump` and `json.load` round-trip such values
exactly, the file is modelled by its parsed value.) -/
def save_checkpoint (last_checked : Option String) : CheckpointFile :=
  .parsed (.obj [("last",
    match last_checked with
    | none => Json.null
    | some s => Json.str s)])

/-- C6: the checkpoint store round-trips values exactly: after a successful
save of value X (a candidate string or None), a fresh `load_checkpoint` on
the resulting file returns exactly X (as the corresponding JSON string, or
None). -/
theorem checkpoint_round_trip (x : Option String) :
    load_checkpoint (save_checkpoint x) = x.map Json.str := by
  cases x <;> rfl

/-- C10: `load_checkpoint` is total at its public interface: for an absent
file, an unreadable file, malformed JSON, or a JSON object without a "last"
field it returns None (the try/except means it never raises), and it returns
a string value exactly when the file holds a JSON object mapping "last" to
that string. -/
theorem load_checkpoint_total :
    load_checkpoint .absent = none ∧
    load_checkpoint .unreadable = none ∧
    load_checkpoint .malformed = none ∧
    (∀ fields : List (String × Json), fields.lookup "last" = none →
      load_checkpoint (.parsed (.obj fields)) = none) ∧
    (∀ (s : String) (fields : List (String × Json)),
      fields.lookup "last" = some (.str s) →
      load_checkpoint (.parsed (.obj fields)) = some (.str s)) ∧
    (∀ (f : CheckpointFile) (s : String), load_checkpoint f = some (.str s) →
      ∃ fields, f = .parsed (.obj fields) ∧ fields.lookup "last" = some (.str s)) := by
  refine ⟨rfl, rfl, rfl, ?_, ?_, ?_⟩
  · intro fields h
    simp [load_checkpoint, pyDictGet, h]
  · intro s fields h
    simp [load_checkpoint, pyDictGet, h]
  · intro f s h
    cases f with
    | absent => simp [load_checkpoint] at h
    | unreadable => simp [load_checkpoint] at h
    | malformed => simp [load_checkpoint] at h
    | parsed j =>
      cases j with
      | null => simp [load_checkpoint] at h
      | bool b => simp [load_checkpoint] at h
      | num n => simp [load_checkpoint] at h
      | str t => simp [load_checkpoint] at h
      | arr items => simp [load_checkpoint] at h
      | obj fields =>
        refine ⟨fields, rfl, ?_⟩
        simp only [load_checkpoint, pyDictGet] at h
        revert h
        cases hl : fields.lookup "last" with
        | none => intro h; cases h
        | some v =>
          cases v with
          | null => intro h; cases h
          | bool b => intro h; cases h
          | num n => intro h; cases h
          | str t => intro h; injection h with h'; injection h' with h''; rw [h'']
          | arr items => intro h; cases h
          | obj fs => intro h; cases h

/-- Witness for C10 at concrete file states. -/
theorem load_checkpoint_total_witness :
    load_checkpoint (.parsed (.obj [("other", Json.num 3)])) = none ∧
    load_checkpoint (.parsed (.obj [("last", Json.str "abc")])) = some (.str "abc") ∧
    ∃ fields, (CheckpointFile.parsed (.obj [("last", Json.str "abc")])) =
        .parsed (.obj fields) ∧ fields.lookup "last" = some (.str "abc") :=
  ⟨load_checkpoint_total.2.2.2.1 [("other", Json.num 3)] rfl,
   load_checkpoint_total.2.2.2.2.1 "abc" [("last", Json.str "abc")] rfl,
   load_checkpoint_total.2.2.2.2.2 (.parsed (.obj [("last", Json.str "abc")])) "abc"
     (load_checkpoint_total.2.2.2.2.1 "abc" [("last", Json.str "abc")] rfl)⟩

/-- Observable actions of one worker thread (source lines 164-196), in
program order. -/
inductive Event where
  | pull (u : List Char)
  | setCheckpoint (u : List Char)
  | probe (u : List Char)
  | printAvailable (u : List Char)
  | writeOutput (u : List Char)
  | saveCheckpointCall
  | printTaken (u : List Char)
  | printRateLimit
  | sleepSeconds (n : Nat)
  | sleepRandom
deriving DecidableEq

/-- The event trace of one worker loop iteration for candidate `u` whose
probe returns `result`, following source lines 165-196 in order: successful
pull, checkpoint update under the lock, probe, then the outcome dispatch
("available" prints, writes, flushes and saves the checkpoint; "taken"
prints; "blocked" prints and sleeps the fixed 90-second cooldown and then
`continue`s, skipping the random delay; "unknown" and "error" fall through),
and finally the random inter-probe delay for every outcome except
"blocked". -/
def stepEvents (u : List Char) (result : String) : List Event :=
  [.pull u, .setCheckpoint u, .probe u] ++
  (if result = "available" then [.printAvailable u, .writeOutput u, .saveCheckpointCall]
   else if result = "taken" then [.printTaken u]
   else if result = "blocked" then [.printRateLimit, .sleepSeconds 90]
   else []) ++
  (if result = "blocked" then [] else [.sleepRandom])

/-- The event trace of one worker consuming the remaining candidates `us` in
order, with `classify` giving each probe's outcome; on exhaustion
(`StopIteration`) the worker returns and the trace ends. -/
def workerTrace (classify : List Char → String) : List (List Char) → List Event
  | [] => []
  | u :: rest => stepEvents u (classify u) ++ workerTrace classify rest

/-- C7: in every worker step, for every outcome, the trace begins with the
pull, then the checkpoint update to the pulled candidate, and only then the
probe — the checkpoint write strictly precedes the classification call, and
no other probe occurs in the step (so the ordering also covers a probe that
never completes). -/
theorem checkpoint_before_probe (u : List Char) (result : String) :
    ∃ t : List Event,
      stepEvents u result =
        Event.pull u :: Event.setCheckpoint u :: Event.probe u :: t ∧
      ∀ v : List Char, Event.probe v ∉ t := by
  refine ⟨((if result = "available"
        then [Event.printAvailable u, Event.writeOutput u, Event.saveCheckpointCall]
      else if result = "taken" then [Event.printTaken u]
      else if result = "blocked" then [Event.printRateLimit, Event.sleepSeconds 90]
      else []) ++
      (if result = "blocked" then [] else [Event.sleepRandom])), rfl, ?_⟩
  intro v
  split_ifs <;> simp

/-- Witness for C7 at a concrete candidate and outcome. -/
theorem checkpoint_before_probe_witness :
    ∃ t : List Event,
      stepEvents ['a'] "taken" =
        Event.pull ['a'] :: Event.setCheckpoint ['a'] :: Event.probe ['a'] :: t ∧
      ∀ v : List Char, Event.probe v ∉ t :=
  checkpoint_before_probe ['a'] "taken"

theorem pull_mem_stepEvents (u v : List Char) (r : String) :
    Event.pull v ∈ stepEvents u r ↔ v = u := by
  simp only [stepEvents, List.mem_append, List.mem_cons]
  split_ifs <;> simp

theorem pull_mem_workerTrace (classify : List Char → String) (v : List Char) :
    ∀ us : List (List Char), Event.pull v ∈ workerTrace classify us ↔ v ∈ us := by
  intro us
  induction us with
  | nil => simp [workerTrace]
  | cons u rest ih =>
    rw [workerTrace, List.mem_append, ih, pull_mem_stepEvents, List.mem_cons]

/-- C8: when the probe of the pulled candidate returns "blocked", the worker
logs, sleeps the fixed 90-second cooldown, and then resumes pulling the rest
of the sequence — the step's trace continues with the trace for the remaining
candidates, so the worker is not terminated — and the candidate that
triggered the block was already consumed: it is never pulled again. -/
theorem blocked_backoff (classify : List Char → String) (u : List Char)
    (rest : List (List Char)) (hb : classify u = "blocked") :
    workerTrace classify (u :: rest) =
      Event.pull u :: Event.setCheckpoint u :: Event.probe u ::
        Event.printRateLimit :: Event.sleepSeconds 90 :: workerTrace classify rest ∧
    (u ∉ rest → Event.pull u ∉ workerTrace classify rest) := by
  constructor
  · show stepEvents u (classify u) ++ workerTrace classify rest = _
    rw [hb]
    rfl
  · intro hnm hmem
    exact hnm ((pull_mem_workerTrace classify u rest).1 hmem)

/-- Witness for C8: a stub classifier that always answers "blocked". -/
theorem blocked_backoff_witness :
    ((fun _ : List Char => "blocked") ['a'] = "blocked") ∧
    (workerTrace (fun _ : List Char => "blocked") [['a'], ['b']] =
      Event.pull ['a'] :: Event.setCheckpoint ['a'] :: Event.probe ['a'] ::
        Event.printRateLimit :: Event.sleepSeconds 90 ::
          workerTrace (fun _ : List Char => "blocked") [['b']] ∧
     (['a'] ∉ ([['b']] : List (List Char)) →
       Event.pull ['a'] ∉ workerTrace (fun _ : List Char => "blocked") [['b']])) :=
  ⟨rfl, blocked_backoff (fun _ : List Char => "blocked") ['a'] [['b']] rfl⟩

/-- The two actions of the shutdown machinery. -/
inductive ShutdownCall where
  | stopSaver
  | saveFinal
deriving DecidableEq

/-- The calls of the `finally` block of `main` (source lines 219-228):
`stop_checkpoint_saver()` then `save_checkpoint()`. -/
def mainFinallyCalls : List ShutdownCall := [.stopSaver, .saveFinal]

/-- The calls of `_handle_exit` (source lines 76-84), which is registered
both as an `atexit` handler and as the SIGTERM handler (source lines
88-93): `stop_checkpoint_saver()` then `save_checkpoint()`. -/
def handleExitCalls : List ShutdownCall := [.stopSaver, .saveFinal]

/-- The exit paths of the orchestrator named by the specification. -/
inductive ExitPath where
  | normal
  | exception
  | sigterm
deriving DecidableEq

/-- The shutdown calls executed on each exit path, in order, following
Python semantics: the `finally` block of `main` runs on both normal and
exceptional exit from the `try` block, and the registered `atexit` handler
`_handle_exit` runs once more at interpreter shutdown.  A SIGTERM runs
`_handle_exit` as the signal handler — which does not itself exit the
process — after which the run eventually ends and the `finally` block and
the `atexit` handler still run. -/
def shutdownCalls : ExitPath → List ShutdownCall
  | .normal => mainFinallyCalls ++ handleExitCalls
  | .exception => mainFinallyCalls ++ handleExitCalls
  | .sigterm => handleExitCalls ++ (mainFinallyCalls ++ handleExitCalls)

/-- C9 counterexample: on the normal-completion exit path the final
synchronous save does not execute exactly once — it executes twice, once in
the `finally` block of `main` and once more in the `atexit` handler
`_handle_exit`. -/
theorem final_save_not_exactly_once :
    (shutdownCalls .normal).count .saveFinal ≠ 1 ∧
    (shutdownCalls .normal).count .saveFinal = 2 := by
  refine ⟨?_, ?_⟩ <;> decide

/-- C9 amended: on every exit path the background checkpoint-flush task is
stopped and a final synchronous save is performed — the last shutdown action
is always a save — but the save executes at least once rather than exactly
once (the `finally` block and the `atexit` handler each perform one). -/
theorem final_save_on_every_exit (p : ExitPath) :
    ShutdownCall.stopSaver ∈ shutdownCalls p ∧
    1 ≤ (shutdownCalls p).count .saveFinal ∧
    (shutdownCalls p).getLast? = some .saveFinal := by
  cases p <;> exact ⟨by decide, by decide, by decide⟩
